import Mathlib

/-!
Verification of the Syntax Protection & Table Extension Engine of the
`umd-core` markup-to-HTML converter.

The Rust sources are shallowly embedded as executable Lean definitions:

* `src/extensions/plugin_markers.rs` — plugin protection (marker generation),
* `src/extensions/conflict_resolver.rs` — marker restoration, HTML escaping,
  argument rendering, and color mapping,
* `src/extensions/table/umd/parser.rs` — UMD table detection, tokenization and
  HTML emission,
* `src/extensions/table/umd/cell_spanning.rs` — colspan/rowspan folding,
* `src/extensions/table/umd/decorations.rs` — per-cell decoration parsing.

Rust strings are modelled as Lean `String`s (lists of Unicode scalar values);
string primitives used by the sources (`trim`, `starts_with`, `ends_with`,
`contains`, `replace`, `split`, `lines`) are given explicit executable
definitions below with Rust semantics (whitespace is modelled by its ASCII
subset, which covers every character class the sources exercise).  The two
external dependencies the protection/restoration path relies on are modelled
from their published specifications: the `base64` crate's
`general_purpose::STANDARD` engine (RFC 4648 §4, canonical padding, no
trailing bits) and Rust's UTF-8 string encoding (`str::as_bytes` /
`String::from_utf8`).  Regular-expression patterns from the sources are
embedded as hand-rolled scanners implementing exactly the matched pattern
with leftmost, non-overlapping `replace_all` semantics.
-/

namespace UMD

/-- Rust `char::is_whitespace` restricted to the ASCII range (the sources only
ever trim ASCII whitespace); also the ASCII semantics of the regex class
`\s`. -/
def isRustWs (c : Char) : Bool :=
  c = ' ' || c = '\t' || c = '\n' || c = '\r' || c = '\x0b' || c = '\x0c'

/-- Rust `str::trim` on a character list: drop whitespace from both ends. -/
def listTrim (l : List Char) : List Char :=
  ((l.dropWhile isRustWs).reverse.dropWhile isRustWs).reverse

/-- Rust `str::trim`. -/
def strTrim (s : String) : String := ⟨listTrim s.data⟩

/-- Rust `str::starts_with` (string pattern). -/
def strStartsWith (s pat : String) : Bool := pat.data.isPrefixOf s.data

/-- Rust `str::ends_with` (string pattern). -/
def strEndsWith (s pat : String) : Bool := pat.data.reverse.isPrefixOf s.data.reverse

/-- Rust `str::contains` (substring test). -/
def listContainsSeq (pat l : List Char) : Bool :=
  decide (pat <:+: l)

/-- Rust `str::contains` on strings. -/
def strContains (s pat : String) : Bool := listContainsSeq pat.data s.data

/-- Rust `str::split(sep)` where `sep` is a single character. -/
def splitOnChar (sep : Char) (l : List Char) : List (List Char) :=
  match l with
  | [] => [[]]
  | c :: rest =>
    let r := splitOnChar sep rest
    if c = sep then [] :: r
    else
      match r with
      | [] => [[c]]
      | h :: t => (c :: h) :: t

/-- Rust `str::lines`: split on `\n`, strip a trailing `\r` from each line,
and do not produce a final empty line for a trailing newline. -/
def rustLines (s : String) : List String :=
  if s.data = [] then []
  else
    let parts := splitOnChar '\n' s.data
    let parts := if s.data.getLast? = some '\n' then parts.dropLast else parts
    parts.map (fun l => ⟨if l.getLast? = some '\r' then l.dropLast else l⟩)

/-- Rust `str::replace` (all non-overlapping occurrences, leftmost first),
fuel-indexed so the scan is structurally total; `replaceSub` instantiates the
fuel with the input length, which is enough for any non-empty pattern. -/
def replaceSubAux (pat rep : List Char) : Nat → List Char → List Char
  | 0, l => l
  | _ + 1, [] => []
  | fuel + 1, c :: cs =>
    if pat ≠ [] ∧ pat.isPrefixOf (c :: cs) then
      rep ++ replaceSubAux pat rep fuel ((c :: cs).drop pat.length)
    else
      c :: replaceSubAux pat rep fuel cs

/-- Rust `str::replace` on strings. -/
def strReplace (s pat rep : String) : String :=
  ⟨replaceSubAux pat.data rep.data s.data.length s.data⟩

/-- Rust `[T]::join` / `itertools` string join. -/
def strJoin (sep : String) (parts : List String) : String :=
  ⟨List.intercalate sep.data (parts.map String.data)⟩

/-! ## UTF-8 (Rust `str::as_bytes` and `String::from_utf8`)

Bytes are modelled as natural numbers below 256. -/

/-- UTF-8 encoding of one Unicode scalar value (Rust `char` / Lean `Char`),
as a list of bytes. -/
def utf8EncodeCharNat (n : Nat) : List Nat :=
  if n < 0x80 then [n]
  else if n < 0x800 then [0xC0 + n / 64, 0x80 + n % 64]
  else if n < 0x10000 then
    [0xE0 + n / 4096, 0x80 + n / 64 % 64, 0x80 + n % 64]
  else
    [0xF0 + n / 262144, 0x80 + n / 4096 % 64, 0x80 + n / 64 % 64, 0x80 + n % 64]

/-- Rust `str::as_bytes`: the UTF-8 byte sequence of a string. -/
def utf8Encode (s : String) : List Nat :=
  s.data.foldr (fun c acc => utf8EncodeCharNat c.toNat ++ acc) []

/-- Continuation bytes of a two-byte UTF-8 sequence (lead byte in
`[0xC2, 0xDF]`, so no overlong forms arise). -/
def utf8DecodeTwo (b0 : Nat) : List Nat → Option (Char × List Nat)
  | b1 :: rest1 =>
    if 0x80 ≤ b1 ∧ b1 < 0xC0 then
      some (Char.ofNat ((b0 - 0xC0) * 64 + (b1 - 0x80)), rest1)
    else none
  | [] => none

/-- Continuation bytes of a three-byte UTF-8 sequence, rejecting overlong
values and surrogates. -/
def utf8DecodeThree (b0 : Nat) : List Nat → Option (Char × List Nat)
  | b1 :: b2 :: rest2 =>
    if 0x80 ≤ b1 ∧ b1 < 0xC0 ∧ 0x80 ≤ b2 ∧ b2 < 0xC0 then
      if 0x800 ≤ (b0 - 0xE0) * 4096 + (b1 - 0x80) * 64 + (b2 - 0x80) ∧
          ¬ (0xD800 ≤ (b0 - 0xE0) * 4096 + (b1 - 0x80) * 64 + (b2 - 0x80) ∧
             (b0 - 0xE0) * 4096 + (b1 - 0x80) * 64 + (b2 - 0x80) < 0xE000) then
        some (Char.ofNat ((b0 - 0xE0) * 4096 + (b1 - 0x80) * 64 + (b2 - 0x80)), rest2)
      else none
    else none
  | _ => none

/-- Continuation bytes of a four-byte UTF-8 sequence, rejecting overlong
values and values above U+10FFFF. -/
def utf8DecodeFour (b0 : Nat) : List Nat → Option (Char × List Nat)
  | b1 :: b2 :: b3 :: rest3 =>
    if 0x80 ≤ b1 ∧ b1 < 0xC0 ∧ 0x80 ≤ b2 ∧ b2 < 0xC0 ∧ 0x80 ≤ b3 ∧ b3 < 0xC0 then
      if 0x10000 ≤ (b0 - 0xF0) * 262144 + (b1 - 0x80) * 4096 + (b2 - 0x80) * 64 + (b3 - 0x80) ∧
          (b0 - 0xF0) * 262144 + (b1 - 0x80) * 4096 + (b2 - 0x80) * 64 + (b3 - 0x80) ≤ 0x10FFFF then
        some (Char.ofNat
          ((b0 - 0xF0) * 262144 + (b1 - 0x80) * 4096 + (b2 - 0x80) * 64 + (b3 - 0x80)), rest3)
      else none
    else none
  | _ => none

/-- One step of strict UTF-8 decoding: decode the scalar value encoded at
the head of the byte list (rejecting overlong encodings, surrogates and
values above U+10FFFF) and return it with the remaining bytes. -/
def utf8DecodeOne : List Nat → Option (Char × List Nat)
  | [] => none
  | b0 :: rest =>
    if b0 < 0x80 then some (Char.ofNat b0, rest)
    else if b0 < 0xC2 then none
    else if b0 < 0xE0 then utf8DecodeTwo b0 rest
    else if b0 < 0xF0 then utf8DecodeThree b0 rest
    else if b0 < 0xF8 then utf8DecodeFour b0 rest
    else none

/-- Fuel-indexed driver for UTF-8 decoding; each successful step consumes at
least one byte, so fuel equal to the input length (as instantiated by
`utf8Decode`) is always sufficient. -/
def utf8DecodeAux : Nat → List Nat → Option (List Char)
  | _, [] => some []
  | 0, _ :: _ => none
  | fuel + 1, b0 :: rest =>
    match utf8DecodeOne (b0 :: rest) with
    | some (c, rest2) => (utf8DecodeAux fuel rest2).map (fun cs => c :: cs)
    | none => none

/-- Rust `String::from_utf8` (strict UTF-8 validation), returning the
decoded scalar-value sequence on success. -/
def utf8Decode (l : List Nat) : Option (List Char) := utf8DecodeAux l.length l

/-! ## Base64 (the `base64` crate's `general_purpose::STANDARD` engine)

RFC 4648 §4 alphabet with `=` padding; decoding is canonical (padding
required, trailing bits must be zero), as configured by `STANDARD`. -/

/-- Standard base64 alphabet. -/
def b64Alphabet : List Char :=
  "ABCDEFGHIJKLMNOPQRSTUVWXYZabcdefghijklmnopqrstuvwxyz0123456789+/".data

/-- Sextet value to alphabet character. -/
def valToChar (v : Nat) : Char := b64Alphabet.getD v '?'

/-- Alphabet character back to its sextet value. -/
def charToVal (c : Char) : Option Nat := b64Alphabet.indexOf? c

/-- Base64 encoding (with padding) of a byte list. -/
def b64Encode : List Nat → List Char
  | [] => []
  | [a] => [valToChar (a / 4), valToChar (a % 4 * 16), '=', '=']
  | [a, b] => [valToChar (a / 4), valToChar (a % 4 * 16 + b / 16), valToChar (b % 16 * 4), '=']
  | a :: b :: c :: t =>
    valToChar (a / 4) :: valToChar (a % 4 * 16 + b / 16) ::
      valToChar (b % 16 * 4 + c / 64) :: valToChar (c % 64) :: b64Encode t

/-- Decoding of a final base64 quantum, honouring canonical `=` padding and
rejecting non-zero trailing bits. -/
def b64DecodeLast (c1 c2 c3 c4 : Char) : Option (List Nat) :=
  if c4 = '=' then
    if c3 = '=' then
      match charToVal c1, charToVal c2 with
      | some v1, some v2 => if v2 % 16 = 0 then some [v1 * 4 + v2 / 16] else none
      | _, _ => none
    else
      match charToVal c1, charToVal c2, charToVal c3 with
      | some v1, some v2, some v3 =>
        if v3 % 4 = 0 then some [v1 * 4 + v2 / 16, v2 % 16 * 16 + v3 / 4] else none
      | _, _, _ => none
  else
    match charToVal c1, charToVal c2, charToVal c3, charToVal c4 with
    | some v1, some v2, some v3, some v4 =>
      some [v1 * 4 + v2 / 16, v2 % 16 * 16 + v3 / 4, v3 % 4 * 64 + v4]
    | _, _, _, _ => none

/-- Base64 decoding of a character list: the length must be a multiple of
four, `=` may appear only in the final quantum. -/
def b64Decode : List Char → Option (List Nat)
  | [] => some []
  | [c1, c2, c3, c4] => b64DecodeLast c1 c2 c3 c4
  | c1 :: c2 :: c3 :: c4 :: rest =>
    match charToVal c1, charToVal c2, charToVal c3, charToVal c4 with
    | some v1, some v2, some v3, some v4 =>
      (b64Decode rest).map
        (fun t => (v1 * 4 + v2 / 16) :: (v2 % 16 * 16 + v3 / 4) :: (v3 % 4 * 64 + v4) :: t)
    | _, _, _, _ => none
  | _ => none

/-! ## Marker codec

The content-side encoding used by the plugin protectors
(`plugin_markers.rs`: `general_purpose::STANDARD.encode(content.as_bytes())`)
and the decoding with fallback used by marker restoration
(`conflict_resolver.rs`, `postprocess_conflicts`:
`decode(..).ok().and_then(|b| String::from_utf8(b).ok()).unwrap_or_else(|| raw.to_string())`). -/

/-- Content encoding applied during plugin protection. -/
def encodeContent (content : String) : String := ⟨b64Encode (utf8Encode content)⟩

/-- Content decoding applied during marker restoration:
`decode(e).ok().and_then(|bytes| String::from_utf8(bytes).ok())
.unwrap_or_else(|| e.to_string())` — falls back to the raw captured payload
when base64 decoding or UTF-8 validation fails. -/
def decodeMarkerContent (encoded : String) : String :=
  ((b64Decode encoded.data).bind
      (fun bytes => (utf8Decode bytes).map (fun cs => (⟨cs⟩ : String)))).getD encoded

/-! ## Plugin protection marker texts (`plugin_markers.rs`)

Each definition is the `format!` template of the corresponding
`replace_all` closure, applied to the pattern's captures. -/

/-- Marker for `&function\x7bcontent\x7d;` (inline, content, no args). -/
def inlineNoargsContentMarkerText (function content : String) : String :=
  "\x7b\x7bINLINE_PLUGIN:" ++ function ++ "::" ++ encodeContent content ++ ":INLINE_PLUGIN\x7d\x7d"

/-- Marker for `&function(args)\x7bcontent\x7d;` (inline, args and content). -/
def inlinePluginMarkerText (function args content : String) : String :=
  "\x7b\x7bINLINE_PLUGIN:" ++ function ++ ":" ++ args ++ ":" ++ encodeContent content ++
    ":INLINE_PLUGIN\x7d\x7d"

/-- Marker for `&function(args);` (inline, args only). -/
def inlineArgsOnlyMarkerText (function args : String) : String :=
  "\x7b\x7bINLINE_PLUGIN_ARGSONLY:" ++ function ++ ":" ++ args ++ ":INLINE_PLUGIN_ARGSONLY\x7d\x7d"

/-- Marker for `&function;` (inline, no args). -/
def inlineNoargsMarkerText (function : String) : String :=
  "\x7b\x7bINLINE_PLUGIN_NOARGS:" ++ function ++ ":INLINE_PLUGIN_NOARGS\x7d\x7d"

/-- Marker for `@function(args)\x7b\x7b content \x7d\x7d` and
`@function(args)\x7bcontent\x7d` (block, args and content; both block
content patterns share one template). -/
def blockPluginMarkerText (function args content : String) : String :=
  "\x7b\x7bBLOCK_PLUGIN:" ++ function ++ ":" ++ args ++ ":" ++ encodeContent content ++
    ":BLOCK_PLUGIN\x7d\x7d"

/-- Marker for `@function(args)` (block, args only): the args are base64
encoded (`encoded_args = STANDARD.encode(args.as_bytes())`). -/
def blockArgsOnlyMarkerText (function args : String) : String :=
  "\x7b\x7bBLOCK_PLUGIN_ARGSONLY:" ++ function ++ ":" ++ encodeContent args ++
    ":BLOCK_PLUGIN_ARGSONLY\x7d\x7d"

/-! ## Block plugin protection scanners (`plugin_markers.rs`,
`protect_block_plugins`)

The three regular expressions are embedded as scanners with leftmost,
non-overlapping `replace_all` semantics (`replaceAllAux` advances one
character on a non-match, emits the replacement and resumes after the match
otherwise).  `\w` is modelled as its ASCII class. -/

/-- Regex `\w` (ASCII): letters, digits and underscore. -/
def isWordChar (c : Char) : Bool := c.isAlpha || c.isDigit || c = '_'

/-- Splits a list at the first occurrence of `pat`, returning the text before
it and the text after it (used for the lazy `([\s\S]*?)` capture up to a
closing delimiter). -/
def splitAtSub (pat : List Char) : List Char → Option (List Char × List Char)
  | [] => none
  | c :: cs =>
    if pat.isPrefixOf (c :: cs) then some ([], (c :: cs).drop pat.length)
    else (splitAtSub pat cs).map (fun p => (c :: p.1, p.2))

/-- Matches `@(\w+)\(([^)]*)\)` at the head of the list, returning the two
captures and the suffix after the match. -/
def matchBlockHead : List Char → Option (String × String × List Char)
  | '@' :: rest =>
    let w := rest.takeWhile isWordChar
    if w = [] then none
    else
      match rest.drop w.length with
      | '(' :: rest2 =>
        let a := rest2.takeWhile (fun c => c ≠ ')')
        match rest2.drop a.length with
        | ')' :: rest3 => some (⟨w⟩, ⟨a⟩, rest3)
        | _ => none
      | _ => none
  | _ => none

/-- Matches `@(\w+)\(([^)]*)\)\{\{([\s\S]*?)\}\}` at the head of the list
(the multiline block pattern), returning the replacement marker and the
suffix after the match. -/
def matchBlockMulti (l : List Char) : Option (String × List Char) :=
  match matchBlockHead l with
  | some (f, a, rest) =>
    match rest with
    | '\x7b' :: '\x7b' :: rest2 =>
      (splitAtSub ['\x7d', '\x7d'] rest2).map
        (fun p => (blockPluginMarkerText f a ⟨p.1⟩, p.2))
    | _ => none
  | none => none

/-- Matches `@(\w+)\(([^)]*)\)\{([^}]*)\}` at the head of the list (the
single-line block pattern). -/
def matchBlockSingle (l : List Char) : Option (String × List Char) :=
  match matchBlockHead l with
  | some (f, a, rest) =>
    match rest with
    | '\x7b' :: rest2 =>
      let content := rest2.takeWhile (fun c => c ≠ '\x7d')
      match rest2.drop content.length with
      | '\x7d' :: rest3 => some (blockPluginMarkerText f a ⟨content⟩, rest3)
      | _ => none
    | _ => none
  | none => none

/-- Matches `@(\w+)\(([^)]*)\)` at the head of the list (the args-only block
pattern). -/
def matchBlockArgsOnly (l : List Char) : Option (String × List Char) :=
  (matchBlockHead l).map (fun p => (blockArgsOnlyMarkerText p.1 p.2.1, p.2.2))

/-- Generic `Regex::replace_all` driver: try the matcher at every position,
left to right; on a match, emit the replacement and resume after the match.
Fuel-indexed (instantiated with the input length); every matcher used here
consumes at least one character per match. -/
def replaceAllAux (matcher : List Char → Option (String × List Char)) :
    Nat → List Char → List Char
  | 0, l => l
  | _ + 1, [] => []
  | fuel + 1, c :: cs =>
    match matcher (c :: cs) with
    | some (rep, rest) => rep.data ++ replaceAllAux matcher fuel rest
    | none => c :: replaceAllAux matcher fuel cs

/-- `replace_all` over a string. -/
def replaceAll (matcher : List Char → Option (String × List Char)) (s : String) : String :=
  ⟨replaceAllAux matcher s.data.length s.data⟩

/-- `protect_block_plugins`: the three block patterns applied in source
order (multiline with content, single line with content, args only). -/
def protectBlockPlugins (input : String) : String :=
  let r1 := replaceAll matchBlockMulti input
  let r2 := replaceAll matchBlockSingle r1
  replaceAll matchBlockArgsOnly r2

/-! ## HTML escaping and argument rendering (`conflict_resolver.rs`) -/

/-- Rust `String::replace` with a single-character pattern. -/
def replaceChar (l : List Char) (c0 : Char) (rep : List Char) : List Char :=
  l.foldr (fun c acc => (if c = c0 then rep else [c]) ++ acc) []

/-- `escape_html_text`: escape `&`, `<`, `>` (in that order). -/
def escapeHtmlText (input : String) : String :=
  ⟨replaceChar (replaceChar (replaceChar input.data '&' "&amp;".data) '<' "&lt;".data)
      '>' "&gt;".data⟩

/-- `parse_args`: split a comma-separated argument string into trimmed
parts; an all-whitespace string yields no arguments. -/
def parseArgs (args : String) : List String :=
  if (strTrim args).data = [] then []
  else (splitOnChar ',' args.data).map (fun l => strTrim ⟨l⟩)

/-- `render_args_as_data`: each argument becomes
`<data value="i">escaped-arg</data>`. -/
def renderArgsAsData (args : String) : String :=
  strJoin "" ((parseArgs args).enum.map
    (fun p => "<data value=\"" ++ toString p.1 ++ "\">" ++ escapeHtmlText p.2 ++ "</data>"))

/-- Plugin `<template>` emission for a restored inline or block plugin with
args and content (the non-decoration branch of the `INLINE_PLUGIN` /
`BLOCK_PLUGIN` restoration closures). -/
def pluginTemplateHtml (function args content : String) : String :=
  let argsHtml := renderArgsAsData args
  let escapedContent := escapeHtmlText content
  if escapedContent = "" then
    "<template class=\"umd-plugin umd-plugin-" ++ function ++ "\">" ++ argsHtml ++ "</template>"
  else
    "<template class=\"umd-plugin umd-plugin-" ++ function ++ "\">" ++ argsHtml ++
      escapedContent ++ "</template>"

/-! ## Color mapping (`conflict_resolver.rs`, `map_color_value`) -/

/-- Bootstrap color names recognized by `map_color_value` (12 theme colors
and 10 custom colors). -/
def bootstrapColorsResolver : List String :=
  ["primary", "secondary", "success", "danger", "warning", "info", "light", "dark",
   "body", "body-secondary", "body-tertiary", "body-emphasis",
   "blue", "indigo", "purple", "pink", "red", "orange", "yellow", "green", "teal", "cyan"]

/-- Rust `char::is_ascii_hexdigit`. -/
def isAsciiHexDigit (c : Char) : Bool :=
  c.isDigit || ('a' ≤ c && c ≤ 'f') || ('A' ≤ c && c ≤ 'F')

/-- UTF-8 byte length of a string (Rust `str::len`). -/
def strByteLen (s : String) : Nat := (utf8Encode s).length

/-- Validity test for the HEX color branch of `map_color_value`: `#RGB` or
`#RRGGBB` with hex digits after `#` (lengths are byte lengths). -/
def isValidHexColor (trimmed : String) : Bool :=
  strStartsWith trimmed "#" && (strByteLen trimmed = 4 || strByteLen trimmed = 7) &&
    (trimmed.data.drop 1).all isAsciiHexDigit

/-- `map_color_value`: a Bootstrap name (or a `name-` prefixed variant)
maps to a class, a valid hex literal to an inline style, anything else to
`None`.  The returned flag is `true` for a class, `false` for a style. -/
def mapColorValue (value : String) (isBackground : Bool) : Option (Bool × String) :=
  let trimmed := strTrim value
  let pfx := if isBackground then "bg" else "text"
  match bootstrapColorsResolver.find?
      (fun color => trimmed = color || strStartsWith trimmed (color ++ "-")) with
  | some _ => some (true, pfx ++ "-" ++ trimmed)
  | none => if isValidHexColor trimmed then some (false, trimmed) else none

/-! ## UMD table engine (`table/umd/parser.rs`, `cell_spanning.rs`,
`decorations.rs`) -/

/-- `Cell` from `table/umd/parser.rs`. -/
structure Cell where
  content : String
  is_header : Bool
  colspan : Nat
  rowspan : Nat
  classes : List String
  styles : List String
deriving DecidableEq

/-- `Cell::new`: default spans of one, no classes or styles. -/
def Cell.new (content : String) (h : Bool) : Cell :=
  { content := content, is_header := h, colspan := 1, rowspan := 1, classes := [], styles := [] }

/-- Bootstrap color names recognized by `is_bootstrap_color` in
`decorations.rs` (a larger list than the resolver's, including black, white
and the gray scale). -/
def bootstrapColorsCell : List String :=
  ["primary", "secondary", "success", "danger", "warning", "info", "light", "dark",
   "blue", "indigo", "purple", "pink", "red", "orange", "yellow", "green", "teal", "cyan",
   "black", "white", "gray", "gray-dark", "gray-100", "gray-200", "gray-300", "gray-400",
   "gray-500", "gray-600", "gray-700", "gray-800", "gray-900"]

/-- `is_bootstrap_color` (`decorations.rs`): exact membership. -/
def isBootstrapColorCell (color : String) : Bool := bootstrapColorsCell.contains color

/-- Digit list to natural number. -/
def digitsToNat (l : List Char) : Nat := l.foldl (fun acc c => acc * 10 + (c.toNat - 48)) 0

/-- Decimal-literal parse standing in for Rust's `str::parse::<f32>` in
`get_bootstrap_size_class`: an optional sign, digits, and at most one
decimal point, evaluated exactly as a rational (numerator, power-of-ten
denominator).  Exponent and infinity forms of the float grammar are not
modelled; the thresholds compared against are exact in both readings. -/
def parseDecimal (s : String) : Option (Int × Nat) :=
  let l := s.data
  let sl : Int × List Char :=
    match l with
    | '-' :: t => (-1, t)
    | '+' :: t => (1, t)
    | _ => (1, l)
  match splitOnChar '.' sl.2 with
  | [ip] =>
    if ip ≠ [] ∧ ip.all Char.isDigit then some (sl.1 * digitsToNat ip, 1) else none
  | [ip, fp] =>
    if (ip ≠ [] ∨ fp ≠ []) ∧ ip.all Char.isDigit ∧ fp.all Char.isDigit then
      some (sl.1 * digitsToNat (ip ++ fp), 10 ^ fp.length)
    else none
  | _ => none

/-- Exact `value ≥ num / den` comparison on a parsed decimal. -/
def decGe (v : Int × Nat) (num den : Nat) : Bool := v.1 * den ≥ (num : Int) * v.2

/-- `get_bootstrap_size_class` (`decorations.rs`): map a numeric size to an
`fs-*` class by thresholds, or `None` when unparsable or below `0.875`. -/
def getBootstrapSizeClass (value : String) : Option String :=
  match parseDecimal value with
  | none => none
  | some v =>
    if decGe v 25 10 then some "fs-1"
    else if decGe v 2 1 then some "fs-2"
    else if decGe v 175 100 then some "fs-3"
    else if decGe v 15 10 then some "fs-4"
    else if decGe v 125 100 then some "fs-5"
    else if decGe v 875 1000 then some "fs-6"
    else none

/-- Anchored matcher for the cell-decoration patterns
`^KW\(([^)]*)\):\s*(.*)$` (with `([^)]+)` when `allowEmpty` is false):
returns the argument capture and the post-`\s*` remainder; the match fails
when the remainder contains a newline (`.` does not match `\n` and `$` only
matches at the end). -/
def matchDecoration (kw : String) (s : String) (allowEmpty : Bool) : Option (String × String) :=
  let pat := (kw ++ "(").data
  if pat.isPrefixOf s.data then
    let rest := s.data.drop pat.length
    let args := rest.takeWhile (fun c => c ≠ ')')
    match rest.drop args.length with
    | ')' :: ':' :: rest2 =>
      if ¬ allowEmpty ∧ args = [] then none
      else
        let tail := rest2.dropWhile isRustWs
        if tail.contains '\n' then none else some (⟨args⟩, ⟨tail⟩)
    | _ => none
  else none

/-- Alignment prefixes and their classes, in the order `parse_cell_content`
tries them. -/
def alignmentPrefixes : List (String × String) :=
  [("TOP:", "align-top"), ("MIDDLE:", "align-middle"), ("BOTTOM:", "align-bottom"),
   ("BASELINE:", "align-baseline"), ("RIGHT:", "text-end"), ("CENTER:", "text-center"),
   ("LEFT:", "text-start"), ("JUSTIFY:", "text-justify")]

/-- `parse_cell_content` (`decorations.rs`): span markers are kept verbatim;
otherwise a leading `~` header marker, a `COLOR(fg,bg):` prefix, a
`SIZE(value):` prefix, one pass of alignment prefixes and a post-decoration
`~` are peeled off, mutating the cell's flags, classes and styles. -/
def parseCellContent (cell : Cell) : Cell :=
  let content := cell.content
  if content = "|>" ∨ strEndsWith content " |>" then cell
  else if content = "|^" then cell
  else
    let st1 : Bool × String :=
      if strStartsWith content "~" then (true, strTrim ⟨content.data.drop 1⟩)
      else (cell.is_header, content)
    let st2 : List String × List String × String :=
      match matchDecoration "COLOR" st1.2 true with
      | none => (cell.classes, cell.styles, st1.2)
      | some (args, rest) =>
        let parts := (splitOnChar ',' args.data).map (fun l => (⟨l⟩ : String))
        let fg := strTrim (parts.getD 0 "")
        let bg := strTrim (parts.getD 1 "")
        let cs1 : List String × List String :=
          if fg ≠ "" ∧ fg ≠ "inherit" then
            if isBootstrapColorCell fg then (cell.classes ++ ["text-" ++ fg], cell.styles)
            else (cell.classes, cell.styles ++ ["color: " ++ fg])
          else (cell.classes, cell.styles)
        let cs2 : List String × List String :=
          if bg ≠ "" ∧ bg ≠ "inherit" then
            if isBootstrapColorCell bg then (cs1.1 ++ ["bg-" ++ bg], cs1.2)
            else (cs1.1, cs1.2 ++ ["background-color: " ++ bg])
          else cs1
        (cs2.1, cs2.2, rest)
    let st3 : List String × List String × String :=
      match matchDecoration "SIZE" st2.2.2 false with
      | none => st2
      | some (value, rest) =>
        match getBootstrapSizeClass value with
        | some bsClass => (st2.1 ++ [bsClass], st2.2.1, rest)
        | none =>
          let sizeValue :=
            if strContains value "rem" ∨ strContains value "em" ∨ strContains value "px" then
              value
            else value ++ "rem"
          (st2.1, st2.2.1 ++ ["font-size: " ++ sizeValue], rest)
    let st4 : List String × String :=
      alignmentPrefixes.foldl
        (fun acc pc =>
          if strStartsWith acc.2 pc.1 then
            (acc.1 ++ [pc.2], strTrim ⟨acc.2.data.drop pc.1.data.length⟩)
          else acc)
        (st3.1, st3.2.2)
    let st5 : Bool × String :=
      if strStartsWith st4.2 "~" then (true, strTrim ⟨st4.2.data.drop 1⟩)
      else (st1.1, st4.2)
    { content := st5.2, is_header := st5.1, colspan := cell.colspan, rowspan := cell.rowspan,
      classes := st4.1, styles := st3.2.1 }

/-- Cell tokenizer of `parse_table`: split a line on `|`, keeping the
two-character sequences `|>` and `|^` inside the current cell; each
completed cell is trimmed, constructed with `Cell::new` and run through
`parse_cell_content`; a final cell is appended when the trailing text is
non-empty or at least one cell was produced. -/
def tokenizeCells : List Char → List Char → List Cell → List Cell
  | [], cur, cells =>
    if strTrim ⟨cur⟩ ≠ "" ∨ cells ≠ [] then
      cells ++ [parseCellContent (Cell.new (strTrim ⟨cur⟩) false)]
    else cells
  | '|' :: next :: rest, cur, cells =>
    if next = '>' ∨ next = '^' then tokenizeCells rest (cur ++ ['|', next]) cells
    else tokenizeCells (next :: rest) [] (cells ++ [parseCellContent (Cell.new (strTrim ⟨cur⟩) false)])
  | ['|'], cur, cells =>
    tokenizeCells [] [] (cells ++ [parseCellContent (Cell.new (strTrim ⟨cur⟩) false)])
  | c :: rest, cur, cells => tokenizeCells rest (cur ++ [c]) cells

/-- UMD-specific marker substrings checked by `is_umd_table`. -/
def umdMarkerStrings : List String :=
  ["|>", "|^", "COLOR(", "SIZE(", "TOP:", "MIDDLE:", "BOTTOM:", "CENTER:", "RIGHT:", "LEFT:"]

/-- `is_umd_table`: a single-line block is UMD; a block whose second line is
not a GFM separator row is UMD; otherwise UMD iff some line contains a span
marker or decoration prefix. -/
def isUmdTable (lines : List String) : Bool :=
  if lines = [] then false
  else if lines.length = 1 then true
  else
    let second := strTrim (lines.getD 1 "")
    let isGfmSep := second.data.all (fun c => c = '|' || c = ':' || c = '-' || isRustWs c)
    if ¬ isGfmSep then true
    else lines.any (fun line => umdMarkerStrings.any (fun m => strContains line m))

/-- Rust `Vec::remove`-style list update at one index. -/
def listModify (l : List α) (i : Nat) (f : α → α) : List α :=
  match l, i with
  | [], _ => []
  | x :: t, 0 => f x :: t
  | x :: t, n + 1 => x :: listModify t n f

/-- The cells a colspan marker folds: empty cells or bare `|>` cells. -/
def isFoldableCell (x : Cell) : Bool := x.content = "" || x.content = "|>"

/-- `trim_end_matches("|>")`: repeatedly strip a trailing `|>`. -/
def trimEndPipeGtRev : List Char → List Char
  | '>' :: '|' :: t => trimEndPipeGtRev t
  | l => l

/-- `trim_end_matches("|>")` on a string. -/
def trimEndPipeGt (s : String) : String := ⟨(trimEndPipeGtRev s.data.reverse).reverse⟩

/-- `process_colspan` on one row (fuel-indexed; `colspanRow` instantiates
the fuel with the row length, which always suffices because every step
consumes at least one cell): a cell whose content ends with (or is) `|>`
has the marker stripped and trimmed, absorbs the immediately following run
of empty-or-`|>` cells (which are removed), and its colspan becomes one plus
the number of absorbed cells. -/
def colspanRowAux : Nat → List Cell → List Cell
  | 0, r => r
  | _ + 1, [] => []
  | fuel + 1, c :: rest =>
    if strEndsWith c.content "|>" || c.content = "|>" then
      { c with content := strTrim (trimEndPipeGt c.content),
               colspan := 1 + (rest.takeWhile isFoldableCell).length } ::
        colspanRowAux fuel (rest.dropWhile isFoldableCell)
    else c :: colspanRowAux fuel rest

/-- `process_colspan` on one row. -/
def colspanRow (r : List Cell) : List Cell := colspanRowAux r.length r

/-- `process_colspan`: each row folded independently. -/
def processColspan (rows : List (List Cell)) : List (List Cell) := rows.map colspanRow

/-- One iteration of the `process_rowspan` inner loop: if the cell at
`(rowIdx, col)` exists and is the bare rowspan marker `|^`, and there is a
previous row in which `col` is in range, increment that cell's rowspan and
remove the marker cell from its row; otherwise leave everything unchanged. -/
def rowspanStep (col rowIdx : Nat) (rows : List (List Cell)) : List (List Cell) :=
  if col < (rows.getD rowIdx []).length ∧
      ((rows.getD rowIdx []).getD col (Cell.new "" false)).content = "|^" then
    if 0 < rowIdx ∧ col < (rows.getD (rowIdx - 1) []).length then
      let rows1 := listModify rows (rowIdx - 1)
        (fun prow => listModify prow col (fun p => { p with rowspan := p.rowspan + 1 }))
      listModify rows1 rowIdx (fun row => row.eraseIdx col)
    else rows
  else rows

/-- `process_rowspan`: for each column index up to the widest row's length
(computed up front), walk the rows top to bottom applying `rowspanStep`. -/
def processRowspan (rows : List (List Cell)) : List (List Cell) :=
  let maxCols := (rows.map List.length).foldr max 0
  (List.range maxCols).foldl
    (fun rs col => (List.range rs.length).foldl (fun rs2 rowIdx => rowspanStep col rowIdx rs2) rs)
    rows

/-- `process_cell_spanning`: colspan folding, then rowspan folding. -/
def processCellSpanning (rows : List (List Cell)) : List (List Cell) :=
  processRowspan (processColspan rows)

/-- HTML for one cell: `th`/`td` by header flag, with `class`, `style`,
`colspan`, `rowspan` attributes emitted only when non-default. -/
def cellHtml (cell : Cell) : String :=
  let tag := if cell.is_header then "th" else "td"
  let attrs :=
    (if cell.classes ≠ [] then ["class=\"" ++ strJoin " " cell.classes ++ "\""] else []) ++
    (if cell.styles ≠ [] then ["style=\"" ++ strJoin "; " cell.styles ++ "\""] else []) ++
    (if cell.colspan > 1 then ["colspan=\"" ++ toString cell.colspan ++ "\""] else []) ++
    (if cell.rowspan > 1 then ["rowspan=\"" ++ toString cell.rowspan ++ "\""] else [])
  let attrsStr := if attrs = [] then "" else " " ++ strJoin " " attrs
  "<" ++ tag ++ attrsStr ++ ">" ++ cell.content ++ "</" ++ tag ++ ">"

/-- `generate_table_html_with_header`: first row inside `<thead>` when the
raw first line carried the `h` suffix, remaining rows inside `<tbody>`. -/
def generateTableHtml (rows : List (List Cell)) (hasThead : Bool) : String :=
  let base := "<table class=\"table umd-table\">"
  if rows = [] then base ++ "</table>"
  else
    let theadPart :=
      if hasThead then
        "<thead>" ++
          (match rows.head? with
           | some headerRow => "<tr>" ++ strJoin "" (headerRow.map cellHtml) ++ "</tr>"
           | none => "") ++
          "</thead>"
      else ""
    let bodyRows := if hasThead then rows.drop 1 else rows
    let tbodyPart :=
      if bodyRows = [] then ""
      else
        "<tbody>" ++
          strJoin "" (bodyRows.map (fun r => "<tr>" ++ strJoin "" (r.map cellHtml) ++ "</tr>")) ++
          "</tbody>"
    base ++ theadPart ++ tbodyPart ++ "</table>"

/-- Rows of `parse_table`: per line, trim, skip lines that are empty or do
not start with `|`, strip the `h` suffix from the very first line, then
tokenize from position one (past the leading `|`). -/
def parseTableRows (lines : List String) : List (List Cell) :=
  lines.enum.filterMap (fun p =>
    let l := strTrim p.2
    if l = "" ∨ ¬ strStartsWith l "|" then none
    else
      let l := if p.1 = 0 ∧ strEndsWith l "h" then (⟨l.data.dropLast⟩ : String) else l
      some (tokenizeCells (l.data.drop 1) [] []))

/-- `parse_table`: classify, detect the header suffix, tokenize rows, fold
spans and emit HTML; non-UMD blocks are returned untouched. -/
def parseTable (tableText : String) : String :=
  let lines := rustLines tableText
  if lines = [] then ""
  else if ¬ isUmdTable lines then tableText
  else
    let hasThead := strEndsWith (strTrim (lines.getD 0 "")) "h"
    let rows := parseTableRows lines
    let rows := processCellSpanning rows
    generateTableHtml rows hasThead

/-- Loop state of `extract_umd_tables`. -/
structure ExtractState where
  result : String
  tables : List (String × String)
  counter : Nat
  inTable : Bool
  tableLines : List String

/-- Finalize one collected block of `|`-lines: UMD blocks are parsed, paired
with a fresh sentinel marker and substituted in the running result; other
blocks are left alone. -/
def finalizeTableBlock (st : ExtractState) : ExtractState :=
  if st.inTable ∧ st.tableLines ≠ [] then
    let tableText := strJoin "\n" st.tableLines
    if isUmdTable (rustLines tableText) then
      let html := parseTable tableText
      let marker := "\n\nUMD_TABLE_MARKER_" ++ toString st.counter ++ "_END\n\n"
      { result := strReplace st.result tableText marker,
        tables := st.tables ++ [(marker, html)],
        counter := st.counter + 1, inTable := false, tableLines := [] }
    else { st with inTable := false, tableLines := [] }
  else { st with inTable := false, tableLines := [] }

/-- One line of the `extract_umd_tables` scan. -/
def extractStep (st : ExtractState) (line : String) : ExtractState :=
  if strStartsWith (strTrim line) "|" then
    { st with inTable := true,
              tableLines := (if st.inTable then st.tableLines else []) ++ [line] }
  else finalizeTableBlock st

/-- `extract_umd_tables`: collect maximal runs of `|`-starting lines,
replace UMD-classified blocks with sentinel markers (wrapped in blank
lines), and return the rewritten text with the (marker, html) pairs. -/
def extractUmdTables (input : String) : String × List (String × String) :=
  let st0 : ExtractState :=
    { result := input, tables := [], counter := 0, inTable := false, tableLines := [] }
  let final := finalizeTableBlock ((rustLines input).foldl extractStep st0)
  (final.result, final.tables)

/-! ## Lemmas: base64 alphabet -/

theorem charToVal_valToChar_fin : ∀ v : Fin 64, charToVal (valToChar v.val) = some v.val := by
  decide

theorem valToChar_ne_pad_fin : ∀ v : Fin 64, valToChar v.val ≠ '=' := by
  decide

theorem charToVal_valToChar {v : Nat} (h : v < 64) : charToVal (valToChar v) = some v :=
  charToVal_valToChar_fin ⟨v, h⟩

theorem valToChar_ne_pad {v : Nat} (h : v < 64) : valToChar v ≠ '=' :=
  valToChar_ne_pad_fin ⟨v, h⟩

theorem b64Encode_ne_nil : ∀ {bs : List Nat}, bs ≠ [] → b64Encode bs ≠ []
  | [], h => absurd rfl h
  | [_], _ => by simp [b64Encode]
  | [_, _], _ => by simp [b64Encode]
  | _ :: _ :: _ :: _, _ => by simp [b64Encode]

/-- Base64 roundtrip: decoding an encoding recovers the original bytes. -/
theorem b64_roundtrip : ∀ (bs : List Nat), (∀ b ∈ bs, b < 256) →
    b64Decode (b64Encode bs) = some bs
  | [], _ => by simp [b64Encode, b64Decode]
  | [a], h => by
    have ha : a < 256 := h a (by simp)
    simp only [b64Encode, b64Decode, b64DecodeLast, if_pos rfl]
    rw [charToVal_valToChar (by omega), charToVal_valToChar (by omega)]
    simp only [if_true]
    rw [if_pos (show a % 4 * 16 % 16 = 0 by omega)]
    simp only [Option.some.injEq, List.cons.injEq, and_true]
    omega
  | [a, b], h => by
    have ha : a < 256 := h a (by simp)
    have hb : b < 256 := h b (by simp)
    simp only [b64Encode, b64Decode, b64DecodeLast, if_pos rfl,
      if_neg (valToChar_ne_pad (v := b % 16 * 4) (by omega))]
    rw [charToVal_valToChar (by omega), charToVal_valToChar (by omega),
      charToVal_valToChar (by omega)]
    simp only [if_true]
    rw [if_pos (show b % 16 * 4 % 4 = 0 by omega)]
    simp only [Option.some.injEq, List.cons.injEq, and_true]
    constructor <;> omega
  | a :: b :: c :: t, h => by
    have ha : a < 256 := h a (by simp)
    have hb : b < 256 := h b (by simp)
    have hc : c < 256 := h c (by simp)
    match ht : t with
    | [] =>
      simp only [b64Encode, b64Decode, b64DecodeLast,
        if_neg (valToChar_ne_pad (v := c % 64) (by omega))]
      rw [charToVal_valToChar (by omega), charToVal_valToChar (by omega),
        charToVal_valToChar (by omega), charToVal_valToChar (by omega)]
      simp only [Option.some.injEq, List.cons.injEq, and_true]
      refine ⟨by omega, by omega, by omega⟩
    | x :: xs =>
      have hrest : b64Encode (x :: xs) ≠ [] := b64Encode_ne_nil (by simp)
      match he : b64Encode (x :: xs) with
      | [] => exact absurd he hrest
      | e :: es =>
        simp only [b64Encode]
        rw [he]
        simp only [b64Decode]
        rw [charToVal_valToChar (by omega), charToVal_valToChar (by omega),
          charToVal_valToChar (by omega), charToVal_valToChar (by omega)]
        rw [show (e :: es) = b64Encode (x :: xs) from he.symm]
        have ih2 : b64Decode (b64Encode (x :: xs)) = some (x :: xs) :=
          b64_roundtrip (x :: xs) (fun y hy => h y (by simp [hy]))
        simp only [ih2, Option.map_some']
        simp only [Option.some.injEq, List.cons.injEq]
        refine ⟨by omega, by omega, by omega, trivial⟩

/-! ## Lemmas: UTF-8 -/

theorem char_valid_cases (ch : Char) :
    ch.toNat < 0xD800 ∨ (0xE000 ≤ ch.toNat ∧ ch.toNat < 0x110000) := ch.valid

theorem utf8EncodeCharNat_lt {n : Nat} (hn : n < 0x110000) :
    ∀ b ∈ utf8EncodeCharNat n, b < 256 := by
  intro b hb
  unfold utf8EncodeCharNat at hb
  by_cases h1 : n < 0x80
  · rw [if_pos h1] at hb
    simp only [List.mem_singleton] at hb
    omega
  · rw [if_neg h1] at hb
    by_cases h2 : n < 0x800
    · rw [if_pos h2] at hb
      simp only [List.mem_cons, List.mem_singleton, List.not_mem_nil, or_false] at hb
      rcases hb with rfl | rfl <;> omega
    · rw [if_neg h2] at hb
      by_cases h3 : n < 0x10000
      · rw [if_pos h3] at hb
        simp only [List.mem_cons, List.not_mem_nil, or_false] at hb
        rcases hb with rfl | rfl | rfl <;> omega
      · rw [if_neg h3] at hb
        simp only [List.mem_cons, List.not_mem_nil, or_false] at hb
        rcases hb with rfl | rfl | rfl | rfl <;> omega

theorem utf8Encode_lt_256 (s : String) : ∀ b ∈ utf8Encode s, b < 256 := by
  unfold utf8Encode
  induction s.data with
  | nil => intro b hb; simp at hb
  | cons c cs ih =>
    intro b hb
    simp only [List.foldr_cons, List.mem_append] at hb
    rcases hb with hb | hb
    · have hv := char_valid_cases c
      exact utf8EncodeCharNat_lt (by omega) b hb
    · exact ih b hb

/-- Decoding one encoded scalar value prepended to any byte tail yields
exactly that character and the tail. -/
theorem utf8DecodeOne_encChar (c : Char) (tail : List Nat) :
    utf8DecodeOne (utf8EncodeCharNat c.toNat ++ tail) = some (c, tail) := by
  have hv := char_valid_cases c
  by_cases h1 : c.toNat < 0x80
  · rw [utf8EncodeCharNat, if_pos h1]
    rw [List.cons_append, List.nil_append]
    rw [utf8DecodeOne]
    rw [if_pos h1, Char.ofNat_toNat]
  · by_cases h2 : c.toNat < 0x800
    · rw [utf8EncodeCharNat, if_neg h1, if_pos h2]
      rw [List.cons_append, List.cons_append, List.nil_append]
      rw [utf8DecodeOne]
      rw [if_neg (by omega), if_neg (by omega), if_pos (by omega)]
      rw [utf8DecodeTwo]
      rw [if_pos (by constructor <;> omega)]
      rw [show (0xC0 + c.toNat / 64 - 0xC0) * 64 + (0x80 + c.toNat % 64 - 0x80) = c.toNat by omega]
      rw [Char.ofNat_toNat]
    · by_cases h3 : c.toNat < 0x10000
      · rw [utf8EncodeCharNat, if_neg h1, if_neg h2, if_pos h3]
        rw [List.cons_append, List.cons_append, List.cons_append, List.nil_append]
        rw [utf8DecodeOne]
        rw [if_neg (by omega), if_neg (by omega), if_neg (by omega), if_pos (by omega)]
        rw [utf8DecodeThree]
        rw [if_pos (by refine ⟨by omega, by omega, by omega, by omega⟩)]
        rw [if_pos (by constructor <;> omega)]
        rw [show (0xE0 + c.toNat / 4096 - 0xE0) * 4096 + (0x80 + c.toNat / 64 % 64 - 0x80) * 64 +
          (0x80 + c.toNat % 64 - 0x80) = c.toNat by omega]
        rw [Char.ofNat_toNat]
      · rw [utf8EncodeCharNat, if_neg h1, if_neg h2, if_neg h3]
        rw [List.cons_append, List.cons_append, List.cons_append, List.cons_append,
          List.nil_append]
        rw [utf8DecodeOne]
        rw [if_neg (by omega), if_neg (by omega), if_neg (by omega), if_neg (by omega),
          if_pos (by omega)]
        rw [utf8DecodeFour]
        rw [if_pos (by refine ⟨by omega, by omega, by omega, by omega, by omega, by omega⟩)]
        rw [if_pos (by constructor <;> omega)]
        rw [show (0xF0 + c.toNat / 262144 - 0xF0) * 262144 +
          (0x80 + c.toNat / 4096 % 64 - 0x80) * 4096 +
          (0x80 + c.toNat / 64 % 64 - 0x80) * 64 + (0x80 + c.toNat % 64 - 0x80) = c.toNat by omega]
        rw [Char.ofNat_toNat]

theorem utf8EncodeCharNat_ne_nil (n : Nat) : utf8EncodeCharNat n ≠ [] := by
  unfold utf8EncodeCharNat
  by_cases h1 : n < 0x80
  · simp [h1]
  · by_cases h2 : n < 0x800
    · simp [h1, h2]
    · by_cases h3 : n < 0x10000 <;> simp [h1, h2, h3]

theorem utf8DecodeAux_encode : ∀ (cs : List Char) (fuel : Nat),
    (utf8Encode ⟨cs⟩).length ≤ fuel → utf8DecodeAux fuel (utf8Encode ⟨cs⟩) = some cs := by
  intro cs
  induction cs with
  | nil =>
    intro fuel _
    show utf8DecodeAux fuel [] = some []
    cases fuel <;> rfl
  | cons c rest ih =>
    intro fuel hfuel
    have henc : utf8Encode ⟨c :: rest⟩ = utf8EncodeCharNat c.toNat ++ utf8Encode ⟨rest⟩ := rfl
    rw [henc] at hfuel ⊢
    have hne := utf8EncodeCharNat_ne_nil c.toNat
    match hE : utf8EncodeCharNat c.toNat with
    | [] => exact absurd hE hne
    | b0 :: ebs =>
      rw [hE] at hfuel
      have hlen : 1 + (ebs ++ utf8Encode ⟨rest⟩).length ≤ fuel := by
        simp only [List.length_append, List.length_cons] at hfuel ⊢
        omega
      match fuel with
      | 0 => omega
      | f + 1 =>
        rw [List.cons_append, utf8DecodeAux]
        rw [show (b0 :: (ebs ++ utf8Encode ⟨rest⟩)) =
          utf8EncodeCharNat c.toNat ++ utf8Encode ⟨rest⟩ by rw [hE, List.cons_append]]
        rw [utf8DecodeOne_encChar]
        show (utf8DecodeAux f (utf8Encode ⟨rest⟩)).map (fun cs => c :: cs) = some (c :: rest)
        rw [ih f (by simp only [List.length_append, List.length_cons] at hfuel; omega)]
        rfl

/-- UTF-8 roundtrip: decoding a string's byte encoding recovers its scalar
values. -/
theorem utf8_roundtrip (s : String) : utf8Decode (utf8Encode s) = some s.data := by
  have h := utf8DecodeAux_encode s.data (utf8Encode ⟨s.data⟩).length (le_refl _)
  show utf8DecodeAux (utf8Encode s).length (utf8Encode s) = some s.data
  have hs : (⟨s.data⟩ : String) = s := rfl
  rw [hs] at h
  exact h

/-! ## Lemmas: HTML escaping -/

theorem mem_replaceChar {ch : Char} {l : List Char} {c0 : Char} {rep : List Char}
    (h : ch ∈ replaceChar l c0 rep) : ch ∈ rep ∨ (ch ∈ l ∧ ch ≠ c0) := by
  induction l with
  | nil => simp [replaceChar] at h
  | cons x t ih =>
    have hx : replaceChar (x :: t) c0 rep =
        (if x = c0 then rep else [x]) ++ replaceChar t c0 rep := rfl
    rw [hx] at h
    rcases List.mem_append.mp h with h1 | h1
    · by_cases hxc : x = c0
      · rw [if_pos hxc] at h1
        exact Or.inl h1
      · rw [if_neg hxc] at h1
        rcases List.mem_singleton.mp h1 with rfl
        exact Or.inr ⟨List.mem_cons_self _ _, hxc⟩
    · rcases ih h1 with h2 | h2
      · exact Or.inl h2
      · exact Or.inr ⟨List.mem_cons_of_mem _ h2.1, h2.2⟩

theorem escapeHtmlText_no_angle (s : String) :
    ∀ ch ∈ (escapeHtmlText s).data, ch ≠ '<' ∧ ch ≠ '>' := by
  intro ch hch
  have hch3 : ch ∈ replaceChar (replaceChar (replaceChar s.data '&' "&amp;".data)
      '<' "&lt;".data) '>' "&gt;".data := hch
  rcases mem_replaceChar hch3 with h | ⟨h2, hne⟩
  · rw [show ("&gt;".data) = ['&', 'g', 't', ';'] from rfl] at h
    simp only [List.mem_cons, List.not_mem_nil, or_false] at h
    rcases h with rfl | rfl | rfl | rfl <;> exact ⟨by decide, by decide⟩
  · rcases mem_replaceChar h2 with h | ⟨_, hne2⟩
    · constructor
      · rw [show ("&lt;".data) = ['&', 'l', 't', ';'] from rfl] at h
        simp only [List.mem_cons, List.not_mem_nil, or_false] at h
        rcases h with rfl | rfl | rfl | rfl <;> decide
      · exact hne
    · exact ⟨hne2, hne⟩

/-! ## Lemmas: marker text shapes -/

theorem substring_of_sandwich (pre mid suf : String) :
    mid.data <:+: (pre ++ mid ++ suf).data := by
  rw [String.data_append, String.data_append]
  exact List.infix_append pre.data mid.data suf.data

/-! ## Claim theorems -/

/-- C1: Marker codec round-trip: encoding any content string during plugin
protection (base64 of the content's UTF-8 bytes) and then decoding it during
marker restoration yields exactly the original content string; decode
composed with encode is the identity on the content field. -/
theorem marker_content_roundtrip (content : String) :
    decodeMarkerContent (encodeContent content) = content := by
  unfold decodeMarkerContent encodeContent
  rw [show ((⟨b64Encode (utf8Encode content)⟩ : String)).data = b64Encode (utf8Encode content)
    from rfl]
  rw [b64_roundtrip _ (utf8Encode_lt_256 content)]
  rw [Option.some_bind]
  rw [utf8_roundtrip content]
  rfl

/-- C4: Decode failure degrades, never aborts: when a marker payload is not
decodable (invalid base64, or the decoded bytes are not valid UTF-8), marker
restoration uses the raw captured payload text itself as the literal
content (and, being a total function, always returns a string). -/
theorem decode_failure_fallback (encoded : String)
    (h : b64Decode encoded.data = none ∨
      ∃ bytes, b64Decode encoded.data = some bytes ∧ utf8Decode bytes = none) :
    decodeMarkerContent encoded = encoded := by
  unfold decodeMarkerContent
  rcases h with h | ⟨bytes, hb, hu⟩
  · rw [h]
    rfl
  · rw [hb, Option.some_bind, hu]
    rfl

/-- C4 witness: `"!!!!"` is rejected by the base64 decoder and `"gA=="`
decodes to the byte `0x80`, which is not valid UTF-8; both fall back to the
raw payload. -/
theorem decode_failure_fallback_witness :
    decodeMarkerContent "!!!!" = "!!!!" ∧ decodeMarkerContent "gA==" = "gA==" :=
  ⟨decode_failure_fallback "!!!!" (Or.inl (by decide)),
   decode_failure_fallback "gA==" (Or.inr ⟨[128], by decide, by decide⟩)⟩

/-- C3 counterexample: the args-only block plugin pattern does not keep its
captured argument string verbatim: protecting `@test(myarg)` produces a
marker holding the base64 text `bXlhcmc=`, and the captured args `myarg` do
not occur in the generated marker text. -/
theorem block_argsonly_args_encoded_cx :
    protectBlockPlugins "@test(myarg)" =
      "\x7b\x7bBLOCK_PLUGIN_ARGSONLY:test:bXlhcmc=:BLOCK_PLUGIN_ARGSONLY\x7d\x7d" ∧
    strContains (protectBlockPlugins "@test(myarg)") "myarg" = false := by
  constructor
  · decide
  · decide

/-- C3 (amended): the captured argument string appears verbatim in the
marker text generated for the inline args+content, inline args-only and the
two content-bearing block patterns; the args-only block pattern instead
embeds the base64 encoding of its args. -/
theorem plugin_args_verbatim (function args content : String) :
    args.data <:+: (inlinePluginMarkerText function args content).data ∧
    args.data <:+: (inlineArgsOnlyMarkerText function args).data ∧
    args.data <:+: (blockPluginMarkerText function args content).data ∧
    (encodeContent args).data <:+: (blockArgsOnlyMarkerText function args).data := by
  refine ⟨?_, ?_, ?_, ?_⟩
  · rw [show inlinePluginMarkerText function args content =
      ("\x7b\x7bINLINE_PLUGIN:" ++ function ++ ":") ++ args ++
        (":" ++ encodeContent content ++ ":INLINE_PLUGIN\x7d\x7d") from by
      simp [inlinePluginMarkerText, String.append_assoc]]
    exact substring_of_sandwich _ _ _
  · rw [show inlineArgsOnlyMarkerText function args =
      ("\x7b\x7bINLINE_PLUGIN_ARGSONLY:" ++ function ++ ":") ++ args ++
        ":INLINE_PLUGIN_ARGSONLY\x7d\x7d" from by
      simp [inlineArgsOnlyMarkerText, String.append_assoc]]
    exact substring_of_sandwich _ _ _
  · rw [show blockPluginMarkerText function args content =
      ("\x7b\x7bBLOCK_PLUGIN:" ++ function ++ ":") ++ args ++
        (":" ++ encodeContent content ++ ":BLOCK_PLUGIN\x7d\x7d") from by
      simp [blockPluginMarkerText, String.append_assoc]]
    exact substring_of_sandwich _ _ _
  · rw [show blockArgsOnlyMarkerText function args =
      ("\x7b\x7bBLOCK_PLUGIN_ARGSONLY:" ++ function ++ ":") ++ encodeContent args ++
        ":BLOCK_PLUGIN_ARGSONLY\x7d\x7d" from by
      simp [blockArgsOnlyMarkerText, String.append_assoc]]
    exact substring_of_sandwich _ _ _

/-- C10: Plugin output escaping: the restored plugin `<template>` element is
the fixed skeleton around `render_args_as_data` output and the escaped
content; every argument value and the content are passed through
`escape_html_text`, whose output never contains a raw `<` or `>`
character. -/
theorem plugin_template_escapes (function args content : String) :
    pluginTemplateHtml function args content =
      "<template class=\"umd-plugin umd-plugin-" ++ function ++ "\">" ++
        renderArgsAsData args ++ escapeHtmlText content ++ "</template>" ∧
    (∀ ch ∈ (escapeHtmlText content).data, ch ≠ '<' ∧ ch ≠ '>') ∧
    ∀ arg ∈ parseArgs args, ∀ ch ∈ (escapeHtmlText arg).data, ch ≠ '<' ∧ ch ≠ '>' := by
  refine ⟨?_, escapeHtmlText_no_angle content, fun arg _ => escapeHtmlText_no_angle arg⟩
  unfold pluginTemplateHtml
  by_cases h : escapeHtmlText content = ""
  · rw [if_pos h, h, String.append_empty]
  · rw [if_neg h]

/-- C9 counterexample: an invalid color value in a table-cell decoration is
not dropped: `COLOR(zzz): X` produces the inline style `color: zzz` (and the
rendered cell carries a `style` attribute), instead of emitting no style. -/
theorem cell_invalid_color_emits_style_cx :
    (parseCellContent (Cell.new "COLOR(zzz): X" false)).styles = ["color: zzz"] ∧
    (parseCellContent (Cell.new "COLOR(zzz): X" false)).content = "X" ∧
    strContains (cellHtml (parseCellContent (Cell.new "COLOR(zzz): X" false)))
      "style=\"color: zzz\"" = true := by
  refine ⟨by decide, by decide, by decide⟩

/-- C9 (amended): in the restoration-side color mapping (`map_color_value`),
a value that is neither a recognized Bootstrap color name (or `name-`
variant) nor a valid hex literal is rejected outright — no class, no style;
table-cell `COLOR`/`SIZE` decorations instead fail open by emitting the raw
value as an inline style while preserving the cell content. -/
theorem map_color_value_invalid_none (value : String) (isBackground : Bool)
    (hB : ∀ color ∈ bootstrapColorsResolver,
      ¬ ((strTrim value = color || strStartsWith (strTrim value) (color ++ "-")) = true))
    (hHex : isValidHexColor (strTrim value) = false) :
    mapColorValue value isBackground = none := by
  unfold mapColorValue
  simp only [List.find?_eq_none.mpr hB, hHex, Bool.false_eq_true, if_false]

/-- C9 witness: the value `zzz` satisfies both invalidity hypotheses and is
mapped to `none`. -/
theorem map_color_value_invalid_none_witness :
    (∀ color ∈ bootstrapColorsResolver,
      ¬ ((strTrim "zzz" = color || strStartsWith (strTrim "zzz") (color ++ "-")) = true)) ∧
    isValidHexColor (strTrim "zzz") = false ∧
    mapColorValue "zzz" false = none :=
  ⟨by decide, by decide, map_color_value_invalid_none "zzz" false (by decide) (by decide)⟩

/-! ## Lemmas: span folding -/

theorem foldl_fixed {α : Type _} {β : Type _} (g : α → β → α) (a : α) (hg : ∀ x, g a x = a) :
    ∀ l : List β, l.foldl g a = a
  | [] => rfl
  | x :: t => by
    rw [List.foldl_cons, hg x]
    exact foldl_fixed g a hg t

theorem colspanRowAux_eq_self : ∀ (fuel : Nat) (r : List Cell),
    (∀ cell ∈ r, strEndsWith cell.content "|>" = false) → colspanRowAux fuel r = r
  | 0, _, _ => rfl
  | _ + 1, [], _ => rfl
  | fuel + 1, c :: rest, h => by
    have hc : strEndsWith c.content "|>" = false := h c (List.mem_cons_self _ _)
    have hne : c.content ≠ "|>" := by
      intro hq
      rw [hq] at hc
      exact absurd hc (by decide)
    rw [colspanRowAux]
    rw [if_neg (by simp [hc, hne])]
    rw [colspanRowAux_eq_self fuel rest (fun x hx => h x (List.mem_cons_of_mem _ hx))]

theorem colspanRow_eq_self (r : List Cell)
    (h : ∀ cell ∈ r, strEndsWith cell.content "|>" = false) : colspanRow r = r :=
  colspanRowAux_eq_self r.length r h

theorem rowspanStep_eq_self (col rowIdx : Nat) (rows : List (List Cell))
    (h : ∀ row ∈ rows, ∀ cell ∈ row, cell.content ≠ "|^") :
    rowspanStep col rowIdx rows = rows := by
  unfold rowspanStep
  split_ifs with h1 h2
  · exfalso
    by_cases hr : rowIdx < rows.length
    · have hrow : rows.getD rowIdx [] ∈ rows := by
        rw [List.getD_eq_getElem rows [] hr]
        exact List.getElem_mem hr
      have hcell : (rows.getD rowIdx []).getD col (Cell.new "" false) ∈ rows.getD rowIdx [] := by
        rw [List.getD_eq_getElem _ _ h1.1]
        exact List.getElem_mem h1.1
      exact h _ hrow _ hcell h1.2
    · have hempty : rows.getD rowIdx [] = [] := List.getD_eq_default _ _ (by omega)
      rw [hempty] at h1
      exact absurd h1.1 (by simp)
  · rfl
  · rfl

theorem processRowspan_eq_self (rows : List (List Cell))
    (h : ∀ row ∈ rows, ∀ cell ∈ row, cell.content ≠ "|^") :
    processRowspan rows = rows := by
  unfold processRowspan
  refine foldl_fixed _ _ (fun col => ?_) _
  exact foldl_fixed _ _ (fun rowIdx => rowspanStep_eq_self col rowIdx rows h) _

theorem processColspan_eq_self (rows : List (List Cell))
    (h : ∀ row ∈ rows, ∀ cell ∈ row, strEndsWith cell.content "|>" = false) :
    processColspan rows = rows := by
  unfold processColspan
  induction rows with
  | nil => rfl
  | cons r rest ih =>
    rw [List.map_cons]
    rw [colspanRow_eq_self r (fun cell hc => h r (List.mem_cons_self _ _) cell hc)]
    rw [ih (fun row hr cell hc => h row (List.mem_cons_of_mem _ hr) cell hc)]

/-! ## Claim theorems: table engine -/

/-- C5: Table format classification: a two-line `|`-block whose second line
is not a GFM separator is classified as the custom (UMD) grammar, while the
block with a `|---|---|` separator line classifies as native GFM and table
extraction leaves its text untouched (and records no table). -/
theorem table_format_classification :
    isUmdTable ["| A | B |", "| C | D |"] = true ∧
    isUmdTable ["| A | B |", "|---|---|", "| C | D |"] = false ∧
    extractUmdTables "| A | B |\n|---|---|\n| C | D |" =
      ("| A | B |\n|---|---|\n| C | D |", []) := by
  refine ⟨by decide, by decide, by decide⟩

set_option maxRecDepth 40000 in
/-- C6: Colspan with header row: parsing `"| A |> |h\n| C | D |"` strips the
trailing `h`, renders the first row inside `<thead>`, and the cell holding
`A` carries `colspan="2"`; no marker or header-suffix text survives. -/
theorem colspan_header_example :
    parseTable "| A |> |h\n| C | D |" =
      "<table class=\"table umd-table\"><thead><tr><td colspan=\"2\">A</td></tr></thead><tbody><tr><td>C</td><td>D</td><td></td></tr></tbody></table>" ∧
    strContains (parseTable "| A |> |h\n| C | D |") "<thead><tr><td colspan=\"2\">A</td></tr></thead>" = true ∧
    strContains (parseTable "| A |> |h\n| C | D |") "|h" = false ∧
    strContains (parseTable "| A |> |h\n| C | D |") "|>" = false := by
  refine ⟨by decide, by decide, by decide, by decide⟩

/-- C7 counterexample: a rowspan marker cell with no cell above it is not
deleted: resolving the one-row table whose single cell is `|^` leaves the
table unchanged, and a cell with content `|^` remains. -/
theorem rowspan_no_source_kept_cx :
    processCellSpanning [[Cell.new "|^" false]] = [[Cell.new "|^" false]] ∧
    ∃ row ∈ processCellSpanning [[Cell.new "|^" false]],
      ∃ cell ∈ row, cell.content = "|^" := by
  refine ⟨by decide, by decide⟩

/-- C7 (amended): a rowspan marker with no source cell above it (row 0, or
column out of range in the prior row) is left in place unchanged — the
rowspan step performs no deletion and the literal `|^` content is kept. -/
theorem rowspan_no_source_noop (col rowIdx : Nat) (rows : List (List Cell))
    (h : rowIdx = 0 ∨ (rows.getD (rowIdx - 1) []).length ≤ col) :
    rowspanStep col rowIdx rows = rows := by
  unfold rowspanStep
  split_ifs with h1 h2
  · exfalso
    rcases h with rfl | hlen
    · exact absurd h2.1 (by omega)
    · exact absurd h2.2 (by omega)
  · rfl
  · rfl

/-- C7 witness: the rowspan step at row 0 (and at a column out of range in
the prior row) leaves the concrete marker table unchanged. -/
theorem rowspan_no_source_noop_witness :
    rowspanStep 0 0 [[Cell.new "|^" false]] = [[Cell.new "|^" false]] ∧
    rowspanStep 2 1 [[Cell.new "A" false], [Cell.new "x" false, Cell.new "y" false,
      Cell.new "|^" false]] = [[Cell.new "A" false], [Cell.new "x" false, Cell.new "y" false,
      Cell.new "|^" false]] :=
  ⟨rowspan_no_source_noop 0 0 [[Cell.new "|^" false]] (Or.inl rfl),
   rowspan_no_source_noop 2 1 [[Cell.new "A" false], [Cell.new "x" false, Cell.new "y" false,
      Cell.new "|^" false]] (Or.inr (by decide))⟩

/-- C8 counterexample: span folding is not idempotent: on the table with
rows `[A, B]` and `[|^, |^]` the first resolution leaves a stray `|^` cell
(its column was shifted by the first deletion), and a second run folds it
again, changing the table. -/
theorem span_folding_not_idempotent_cx :
    processCellSpanning (processCellSpanning
      [[Cell.new "A" false, Cell.new "B" false],
       [Cell.new "|^" false, Cell.new "|^" false]]) ≠
    processCellSpanning
      [[Cell.new "A" false, Cell.new "B" false],
       [Cell.new "|^" false, Cell.new "|^" false]] := by
  decide

/-- C8 (amended): span folding is idempotent on every table whose resolved
form retains no span-marker text: if no cell of the resolved table has
content ending in `|>` and none is the bare `|^` marker, resolving a second
time changes nothing. -/
theorem span_folding_idempotent (rows : List (List Cell))
    (h : ∀ row ∈ processCellSpanning rows, ∀ cell ∈ row,
      strEndsWith cell.content "|>" = false ∧ cell.content ≠ "|^") :
    processCellSpanning (processCellSpanning rows) = processCellSpanning rows := by
  have h1 : processColspan (processCellSpanning rows) = processCellSpanning rows :=
    processColspan_eq_self _ (fun row hr cell hc => (h row hr cell hc).1)
  show processRowspan (processColspan (processCellSpanning rows)) = processCellSpanning rows
  rw [h1]
  exact processRowspan_eq_self _ (fun row hr cell hc => (h row hr cell hc).2)

/-- C8 witness: the colspan example table resolves to marker-free rows, and
a second resolution run leaves it unchanged. -/
theorem span_folding_idempotent_witness :
    (∀ row ∈ processCellSpanning
        [[Cell.new "A |>" false, Cell.new "" false],
         [Cell.new "C" false, Cell.new "D" false]], ∀ cell ∈ row,
      strEndsWith cell.content "|>" = false ∧ cell.content ≠ "|^") ∧
    processCellSpanning (processCellSpanning
      [[Cell.new "A |>" false, Cell.new "" false],
       [Cell.new "C" false, Cell.new "D" false]]) =
    processCellSpanning
      [[Cell.new "A |>" false, Cell.new "" false],
       [Cell.new "C" false, Cell.new "D" false]] :=
  ⟨by decide, span_folding_idempotent _ (by decide)⟩

end UMD
